import Mathlib

/-!
Verification development for the universal air-quality API: a shallow
embedding of the schema-driven table manager and query/downsample engine
(controllers `DataReadings`, utility `SensorSchemaUtility`), together with
theorems settling the specification claims about it.

Conventions of the embedding:
* a database row (`Record`) is an association list from column names to
  rational values; the temporal column's value stands for the absolute
  instant of the timestamp (the millisecond value of `new Date(v).getTime()`);
* JavaScript objects built by insertion (`averagedPoint`) are association
  lists where assigning a fresh key appends it and assigning an existing key
  updates it in place;
* the storage collaborator's range scan (`selectRange` of the spec) is a
  filter over the stored rows by the temporal column.
-/

namespace AirQuality

/-- A data record: association list from column name to rational value. -/
abbrev Row := List (String × ℚ)

/-- Value stored at key `k`, JS-object style (`undefined` when absent). -/
def getVal {α : Type} (k : String) : List (String × α) → Option α
  | [] => none
  | (k1, v) :: rest => if k = k1 then some v else getVal k rest

/-- Numeric read of an object field, with `undefined`/absent read as `0`
(the `(averagedPoint[key] || 0)` pattern). -/
def lookupQ (r : Row) (k : String) : ℚ :=
  (getVal k r).getD 0

/-- The key list of a record, in object-insertion order. -/
def keysOf {α : Type} (r : List (String × α)) : List String :=
  r.map Prod.fst

/-- JS `m[k] = (m[k] || 0) + v`: update an existing key in place, or append
a fresh key at the end. -/
def upsertAdd (m : Row) (k : String) (v : ℚ) : Row :=
  match m with
  | [] => [(k, v)]
  | (k1, v1) :: rest =>
    if k1 = k then (k1, v1 + v) :: rest else (k1, v1) :: upsertAdd rest k v

/-- JS `m[k] = v`: overwrite an existing key in place, or append it. -/
def setKey {α : Type} (m : List (String × α)) (k : String) (v : α) :
    List (String × α) :=
  match m with
  | [] => [(k, v)]
  | (k1, v1) :: rest =>
    if k1 = k then (k1, v) :: rest else (k1, v1) :: setKey rest k v

/-- Apply `f` to every stored value, keeping keys and order. -/
def mapVals (f : ℚ → ℚ) (m : Row) : Row :=
  m.map fun kv => (kv.1, f kv.2)

/-- One iteration of the inner `for key in dataPoint` loop of the
downsampler (`fetchSensorDataReadings`, part_002 lines 909-915): non-id,
non-temporal keys are summed into the accumulator object, the temporal key
is summed into `totalTime`, and `id` is skipped. -/
def sumStep (dateCol : String) (acc : Row × ℚ) (kv : String × ℚ) : Row × ℚ :=
  if kv.1 ≠ dateCol ∧ kv.1 ≠ "id" then (upsertAdd acc.1 kv.1 kv.2, acc.2)
  else if kv.1 = dateCol then (acc.1, acc.2 + kv.2)
  else acc

/-- Fold one data point of a window into the running sums. -/
def addRowToSums (dateCol : String) (acc : Row × ℚ) (r : Row) : Row × ℚ :=
  r.foldl (sumStep dateCol) acc

/-- Average one window (part_002 lines 904-923): sum the window's rows,
divide every accumulated key by `rowsToAverage`, then assign the averaged
instant to the temporal key. -/
def averageWindow (dateCol : String) (w : List Row) (rowsToAverage : ℕ) : Row :=
  let st := w.foldl (addRowToSums dateCol) ([], 0)
  setKey (mapVals (fun v => v / (rowsToAverage : ℚ)) st.1) dateCol
    (st.2 / (rowsToAverage : ℚ))

/-- The window sizes produced by iterations `i, i+1, ...` of the loop:
`base + 1` while the index is below `extra`, else `base`. -/
def windowSizesFrom (base extra : ℕ) : ℕ → ℕ → List ℕ
  | _, 0 => []
  | i, rem + 1 =>
    (base + if i < extra then 1 else 0) :: windowSizesFrom base extra (i + 1) rem

/-- All window sizes for `n` rows downsampled to `t` windows. -/
def windowSizes (n t : ℕ) : List ℕ :=
  windowSizesFrom (n / t) (n % t) 0 t

/-- Split a row list into consecutive windows of the given sizes. -/
def splitWindows (rows : List Row) : List ℕ → List (List Row)
  | [] => []
  | s :: sizes => rows.take s :: splitWindows (rows.drop s) sizes

/-- The downsampling `for` loop of `fetchSensorDataReadings`
(part_002 lines 889-930): `i` is the loop counter, `rem` the remaining
iterations, `cur` the `currentIndex`; the loop breaks when `cur` reaches the
end, takes the window `[cur, min (cur+size) n)`, and divides by the intended
size `rowsToAverage` (not the actual slice length). -/
def downsampleLoop (dateCol : String) (rows : List Row) (base extra : ℕ) :
    ℕ → ℕ → ℕ → List Row
  | _, 0, _ => []
  | i, rem + 1, cur =>
    if rows.length ≤ cur then []
    else
      let size := base + (if i < extra then 1 else 0)
      let stop := min (cur + size) rows.length
      averageWindow dateCol ((rows.drop cur).take (stop - cur)) size ::
        downsampleLoop dateCol rows base extra (i + 1) rem stop

/-- The reassignment `if (averaged_rows > allData.length) averaged_rows =
allData.length` (part_002 lines 879-881), as the number of loop iterations:
a non-positive request runs the loop zero times. -/
def clampTarget (n : ℕ) (t : ℤ) : ℕ :=
  (if (n : ℤ) < t then (n : ℤ) else t).toNat

/-- The downsampler (part_002 lines 877-931): clamp the requested count to
the row count, compute `base = floor(n/t)` and `extra = n mod t`, and run
the averaging loop. -/
def downsample (dateCol : String) (rows : List Row) (t : ℤ) : List Row :=
  downsampleLoop dateCol rows
    (rows.length / clampTarget rows.length t)
    (rows.length % clampTarget rows.length t)
    0 (clampTarget rows.length t) 0

/-- Outcome of a fetch handler: a JSON payload or an error response. -/
inductive FetchOutcome
  | ok (rows : List Row)
  | badRequest (msg : String)
deriving DecidableEq

/-- The JSON fetch handler with optional downsampling (part_002 lines
798-949), after the rows have been read back from storage: an empty result
is a reported error; a supplied `averaged_rows` (any non-empty query value,
including `0` and negatives, is truthy) selects the downsampled payload,
otherwise the rows are returned unchanged. -/
def fetchSensorDataReadings (dateCol : String) (allData : List Row)
    (averagedRows : Option ℤ) : FetchOutcome :=
  if allData.length = 0 then
    .badRequest "No data found for the specified sensor."
  else
    match averagedRows with
    | some t => .ok (downsample dateCol allData t)
    | none => .ok allData

/-- The storage collaborator's range scan (`selectRange` of the spec):
keep the stored rows whose temporal value lies between the bounds, each
bound inclusive or exclusive per its flag. -/
def selectRange (rows : List Row) (col : String) (lo hi : ℚ)
    (incLo incHi : Bool) : List Row :=
  rows.filter fun r =>
    (if incLo then decide (lo ≤ lookupQ r col) else decide (lo < lookupQ r col))
      &&
    (if incHi then decide (lookupQ r col ≤ hi) else decide (lookupQ r col < hi))

/-- Row selection of the CSV export handler `exportSensorDataToCSV`
(DataReadings.js lines 95-98): inclusive at both ends. -/
def exportRangeRows (rows : List Row) (col : String) (lo hi : ℚ) : List Row :=
  selectRange rows col lo hi true true

/-- Row selection of the plain JSON fetch handler `fetchSensorDataReadings`
(DataReadings.js lines 367-370): exclusive at both ends. -/
def fetchRangeRowsPlain (rows : List Row) (col : String) (lo hi : ℚ) : List Row :=
  selectRange rows col lo hi false false

/-- Row selection of the downsample-capable JSON fetch handler
`fetchSensorDataReadings` (part_002 lines 861-864): inclusive at both ends. -/
def fetchRangeRowsDownsample (rows : List Row) (col : String) (lo hi : ℚ) :
    List Row :=
  selectRange rows col lo hi true true

/-! ### Schema validation and table provisioning (`SensorSchemaUtility.js`) -/

/-- A user-supplied schema: `Object.entries` of the mapping from column name
to abstract type token, in insertion order. -/
abbrev Schema := List (String × String)

/-- ASCII lower-casing of one character (the effect of JavaScript
`toLowerCase` on the ASCII type tokens this system uses). -/
def lowerChar (c : Char) : Char :=
  if 'A' ≤ c ∧ c ≤ 'Z' then Char.ofNat (c.toNat + 32) else c

/-- ASCII lower-casing of a type token. -/
def toLowerAscii (s : String) : String :=
  ⟨s.data.map lowerChar⟩

/-- Whether an abstract type token names a temporal column
(`dataType.toLowerCase() === "date" || ... === "datetime"`). -/
def isTemporalType (dataType : String) : Bool :=
  toLowerAscii dataType = "date" || toLowerAscii dataType = "datetime"

/-- The schema entries whose abstract type is temporal
(`SensorSchemaUtility.js` lines 14-18). -/
def dateColumnsOf (schema : Schema) : Schema :=
  schema.filter fun e => isTemporalType e.2

/-- Result value of a provisioning call that did not throw. -/
inductive ProvisionOutcome
  | created
  | alreadyExists
deriving DecidableEq

/-- `createSensorMeasurementTable` (`SensorSchemaUtility.js` lines 5-65)
over an abstract storage state listing the existing table names: an
existing name returns the `already exists` value before anything else; a
schema without exactly one temporal column throws (the `Except.error`
branch) before any table is created; otherwise the table is appended. -/
def createSensorMeasurementTable (tables : List String) (tableName : String)
    (schema : Schema) : List String × Except String ProvisionOutcome :=
  if tableName ∈ tables then
    (tables, .ok .alreadyExists)
  else if (dateColumnsOf schema).length ≠ 1 then
    (tables,
      .error ("Table must contain exactly one date or datetime column, found "
        ++ toString (dateColumnsOf schema).length ++ "."))
  else
    (tables ++ [tableName], .ok .created)

/-! ### Timestamp normalization (`formatDateTime`, part_001 lines 99-123) -/

/-- Calendar components of a parsed timestamp. -/
structure DateTime where
  year : ℕ
  month : ℕ
  day : ℕ
  hour : ℕ
  minute : ℕ
  second : ℕ
deriving DecidableEq

/-- Split a character list at every occurrence of `c` (the behavior of JS
`split` on the single-character separators used here). -/
def splitOnChar (c : Char) : List Char → List (List Char)
  | [] => [[]]
  | ch :: rest =>
    let groups := splitOnChar c rest
    if ch = c then [] :: groups
    else
      match groups with
      | [] => [[ch]]
      | g :: gs => (ch :: g) :: gs

/-- Numeric value of a decimal digit character. -/
def digitVal (c : Char) : Option ℕ :=
  if '0' ≤ c ∧ c ≤ '9' then some (c.toNat - '0'.toNat) else none

/-- Parse an all-digit character group, most significant digit first. -/
def parseNatCharsAux : List Char → ℕ → Option ℕ
  | [], acc => some acc
  | c :: rest, acc =>
    match digitVal c with
    | none => none
    | some d => parseNatCharsAux rest (10 * acc + d)

/-- Parse a non-empty all-digit character group. -/
def parseNatChars : List Char → Option ℕ
  | [] => none
  | cs => parseNatCharsAux cs 0

/-- Parse `HH:MM:SS` into components. -/
def parseTimePart (cs : List Char) : Option (ℕ × ℕ × ℕ) :=
  match splitOnChar ':' cs with
  | [h, m, s] =>
    match parseNatChars h, parseNatChars m, parseNatChars s with
    | some a, some b, some c => some (a, b, c)
    | _, _, _ => none
  | _ => none

/-- Parse the date part: slash-delimited `M/D/YYYY` (US order, as the
JavaScript `Date` parser reads it) or dash-delimited `YYYY-MM-DD`.
Returns `(year, month, day)`. -/
def parseDatePart (cs : List Char) : Option (ℕ × ℕ × ℕ) :=
  if cs.contains '/' then
    match splitOnChar '/' cs with
    | [mo, d, y] =>
      match parseNatChars y, parseNatChars mo, parseNatChars d with
      | some a, some b, some c => some (a, b, c)
      | _, _, _ => none
    | _ => none
  else
    match splitOnChar '-' cs with
    | [y, mo, d] =>
      match parseNatChars y, parseNatChars mo, parseNatChars d with
      | some a, some b, some c => some (a, b, c)
      | _, _, _ => none
    | _ => none

/-- Model of `new Date(inputDate)` followed by the component getters, for
the textual formats this system accepts: an optional `HH:MM:SS` time part
after a space, with missing time read as midnight. -/
def parseDate (s : String) : Option DateTime :=
  match splitOnChar ' ' s.data with
  | [datePart, timePart] =>
    (parseDatePart datePart).bind fun d =>
      (parseTimePart timePart).map fun tp =>
        ⟨d.1, d.2.1, d.2.2, tp.1, tp.2.1, tp.2.2⟩
  | [datePart] =>
    (parseDatePart datePart).map fun d => ⟨d.1, d.2.1, d.2.2, 0, 0, 0⟩
  | _ => none

/-- The decimal digit character for `n < 10`. -/
def digitChar (n : ℕ) : Char :=
  Char.ofNat (Char.toNat '0' + n % 10)

/-- Decimal digits of `n`, most significant first, for `n < 10^fuel`. -/
def natDigitsAux : ℕ → ℕ → List Char
  | 0, _ => []
  | fuel + 1, n =>
    if n = 0 then [] else natDigitsAux fuel (n / 10) ++ [digitChar (n % 10)]

/-- Decimal rendering of a natural number (JS `String(n)` for the calendar
components in range here). -/
def natToString (n : ℕ) : String :=
  if n = 0 then "0" else ⟨natDigitsAux 8 n⟩

/-- `String(n).padStart(2, "0")`. -/
def padStart2 (n : ℕ) : String :=
  if n < 10 then "0" ++ natToString n else natToString n

/-- `formatDateTime` (part_001 lines 99-123): parse the input permissively
and re-render it as `YYYY-MM-DD HH:MM:SS`; an unparseable input throws. -/
def formatDateTime (inputDate : String) : Except String String :=
  match parseDate inputDate with
  | none => .error "Invalid date format"
  | some d =>
    .ok (natToString d.year ++ "-" ++ padStart2 d.month ++ "-" ++ padStart2 d.day
      ++ " " ++ padStart2 d.hour ++ ":" ++ padStart2 d.minute ++ ":"
      ++ padStart2 d.second)

/-! ### Ingestion (insert handlers of part_002 / `DataReadings.js`) -/

/-- A raw ingested record: column name to textual value. -/
abbrev RawRecord := List (String × String)

/-- Textual read of a field, with absence read as the falsy empty string. -/
def lookupS (r : RawRecord) (k : String) : String :=
  (getVal k r).getD ""

/-- `compareSets` (`SensorSchemaUtility.js` lines 99-101): equal size and
every member of the first present in the second. -/
def compareSets (a b : Finset String) : Bool :=
  a.card = b.card && a ⊆ b

/-- The per-record step of the insert handlers: when the temporal field is
present and truthy, rewrite it with `formatDateTime` (part_002 lines
1032-1038); a parse failure throws for the whole batch. -/
def normalizeRecordDate (dateCol : String) (r : RawRecord) :
    Except String RawRecord :=
  if lookupS r dateCol = "" then .ok r
  else
    match formatDateTime (lookupS r dateCol) with
    | .error e => .error e
    | .ok v => .ok (setKey r dateCol v)

/-- Outcome of an ingestion request: the rows handed to the bulk insert, or
a rejection with nothing inserted. -/
inductive InsertOutcome
  | inserted (rows : List RawRecord)
  | rejected (msg : String)
deriving DecidableEq

/-- Normalize every record of a batch, failing on the first bad timestamp. -/
def normalizeBatch (dateCol : String) : List RawRecord →
    Except String (List RawRecord)
  | [] => .ok []
  | r :: rs =>
    match normalizeRecordDate dateCol r with
    | .error e => .error e
    | .ok r2 =>
      match normalizeBatch dateCol rs with
      | .error e => .error e
      | .ok rs2 => .ok (r2 :: rs2)

/-- The structured-JSON insert handler `insertSensorDataReadings`
(part_002 lines 953-1060), after the live column set has been read back:
the key set of `requestPayload[0]` alone is compared against the live
columns; on a match the whole batch is normalized and handed to the bulk
insert.  An empty payload throws (`Object.keys(undefined)`). -/
def insertSensorDataReadings (schemaColumns : Finset String) (dateCol : String)
    (payload : List RawRecord) : InsertOutcome :=
  match payload.head? with
  | none => .rejected "Error processing your request."
  | some r0 =>
    if compareSets (keysOf r0).toFinset schemaColumns then
      match normalizeBatch dateCol payload with
      | .error _ => .rejected "Error processing your request."
      | .ok rows => .inserted rows
    else
      .rejected
        "Error processing your data. Column names or data types do not match table schema."

/-- The row loop of the CSV insert handler `insertSensorDataFromCSV`
(part_002 lines 733-754): each parsed row's key set is compared against the
live columns, and the first mismatch aborts the whole upload before any
insert happens. -/
def processCsvRows (schemaColumns : Finset String) (dateCol : String) :
    List RawRecord → Except String (List RawRecord)
  | [] => .ok []
  | r :: rs =>
    if compareSets (keysOf r).toFinset schemaColumns then
      match normalizeRecordDate dateCol r with
      | .error e => .error e
      | .ok r2 =>
        match processCsvRows schemaColumns dateCol rs with
        | .error e => .error e
        | .ok rs2 => .ok (r2 :: rs2)
    else .error "Column validation failed."

/-- The CSV insert handler after file parsing: a failed row check rejects
the upload with no insert; an empty parse is also a reported error; a clean
parse hands every normalized row to the bulk insert. -/
def insertSensorDataFromCSV (schemaColumns : Finset String) (dateCol : String)
    (rows : List RawRecord) : InsertOutcome :=
  match processCsvRows schemaColumns dateCol rows with
  | .error e => .rejected e
  | .ok [] => .rejected "No valid data found in the CSV file."
  | .ok normalized => .inserted normalized

/-! ### Association-list lemmas -/

theorem getVal_upsertAdd (m : Row) (k k0 : String) (v : ℚ) :
    getVal k (upsertAdd m k0 v) =
      if k = k0 then some ((getVal k m).getD 0 + v) else getVal k m := by
  induction m with
  | nil =>
    by_cases h : k = k0 <;> simp [upsertAdd, getVal, h]
  | cons kv rest ih =>
    obtain ⟨k1, v1⟩ := kv
    by_cases h1 : k1 = k0
    · subst h1
      by_cases h2 : k = k1 <;> simp [upsertAdd, getVal, h2]
    · by_cases h2 : k = k1
      · subst h2
        simp [upsertAdd, h1, getVal, Ne.symm h1]
      · simp [upsertAdd, h1, getVal, h2, ih]

theorem lookupQ_upsertAdd (m : Row) (k k0 : String) (v : ℚ) :
    lookupQ (upsertAdd m k0 v) k =
      if k = k0 then lookupQ m k + v else lookupQ m k := by
  by_cases h : k = k0 <;> simp [lookupQ, getVal_upsertAdd, h]

theorem getVal_setKey {α : Type} (m : List (String × α)) (k k0 : String) (v : α) :
    getVal k (setKey m k0 v) = if k = k0 then some v else getVal k m := by
  induction m with
  | nil =>
    by_cases h : k = k0 <;> simp [setKey, getVal, h]
  | cons kv rest ih =>
    obtain ⟨k1, v1⟩ := kv
    by_cases h1 : k1 = k0
    · subst h1
      by_cases h2 : k = k1 <;> simp [setKey, getVal, h2]
    · by_cases h2 : k = k1
      · subst h2
        simp [setKey, h1, getVal, Ne.symm h1]
      · simp [setKey, h1, getVal, h2, ih]

theorem getVal_mapVals (f : ℚ → ℚ) (m : Row) (k : String) :
    getVal k (mapVals f m) = (getVal k m).map f := by
  induction m with
  | nil => simp [mapVals, getVal]
  | cons kv rest ih =>
    by_cases h : k = kv.1 <;> simp [mapVals, getVal, h] <;> simpa [mapVals] using ih

theorem mem_keysOf_upsertAdd (m : Row) (k k0 : String) (v : ℚ) :
    k ∈ keysOf (upsertAdd m k0 v) ↔ k ∈ keysOf m ∨ k = k0 := by
  induction m with
  | nil => simp [upsertAdd, keysOf]
  | cons kv rest ih =>
    obtain ⟨k1, v1⟩ := kv
    by_cases h1 : k1 = k0
    · subst h1
      simp [upsertAdd, keysOf]
      tauto
    · simp only [upsertAdd, if_neg h1, keysOf, List.map_cons, List.mem_cons]
      rw [show (keysOf (upsertAdd rest k0 v) = (upsertAdd rest k0 v).map Prod.fst) from rfl] at ih
      rw [show (keysOf rest = rest.map Prod.fst) from rfl] at ih
      tauto

theorem mem_keysOf_setKey {α : Type} (m : List (String × α)) (k k0 : String) (v : α) :
    k ∈ keysOf (setKey m k0 v) ↔ k ∈ keysOf m ∨ k = k0 := by
  induction m with
  | nil => simp [setKey, keysOf]
  | cons kv rest ih =>
    obtain ⟨k1, v1⟩ := kv
    by_cases h1 : k1 = k0
    · subst h1
      simp [setKey, keysOf]
      tauto
    · simp only [setKey, if_neg h1, keysOf, List.map_cons, List.mem_cons]
      rw [show (keysOf (setKey rest k0 v) = (setKey rest k0 v).map Prod.fst) from rfl] at ih
      rw [show (keysOf rest = rest.map Prod.fst) from rfl] at ih
      tauto

theorem keysOf_mapVals (f : ℚ → ℚ) (m : Row) :
    keysOf (mapVals f m) = keysOf m := by
  induction m with
  | nil => rfl
  | cons kv rest ih => simpa [mapVals, keysOf] using ih

/-! ### Sums of a column over an entry list -/

/-- Sum of the values stored at key `k` in an entry list. -/
def sumVals (k : String) (es : List (String × ℚ)) : ℚ :=
  ((es.filter fun kv => decide (kv.1 = k)).map Prod.snd).sum

theorem sumVals_nil (k : String) : sumVals k [] = 0 := rfl

theorem sumVals_cons (k : String) (kv : String × ℚ) (es : List (String × ℚ)) :
    sumVals k (kv :: es) = (if kv.1 = k then kv.2 else 0) + sumVals k es := by
  by_cases h : kv.1 = k <;> simp [sumVals, List.filter_cons, h]

theorem sumVals_append (k : String) (es1 es2 : List (String × ℚ)) :
    sumVals k (es1 ++ es2) = sumVals k es1 + sumVals k es2 := by
  simp [sumVals, List.filter_append]

theorem sumVals_flatten (k : String) (w : List Row) :
    sumVals k w.flatten = (w.map fun r => sumVals k r).sum := by
  induction w with
  | nil => simp [sumVals]
  | cons r rs ih => simp [List.flatten_cons, sumVals_append, ih]

theorem sumVals_eq_zero_of_not_mem (k : String) (es : List (String × ℚ))
    (h : k ∉ keysOf es) : sumVals k es = 0 := by
  induction es with
  | nil => rfl
  | cons kv rest ih =>
    simp only [keysOf, List.map_cons, List.mem_cons, not_or] at h
    rw [sumVals_cons, if_neg (fun hk => h.1 hk.symm),
      ih (by simpa [keysOf] using h.2), add_zero]

theorem sumVals_eq_lookupQ (k : String) (r : Row) (h : (keysOf r).Nodup) :
    sumVals k r = lookupQ r k := by
  induction r with
  | nil => simp [sumVals, lookupQ, getVal]
  | cons kv rest ih =>
    simp only [keysOf, List.map_cons, List.nodup_cons] at h
    by_cases hk : kv.1 = k
    · subst hk
      rw [sumVals_cons, if_pos rfl,
        sumVals_eq_zero_of_not_mem kv.1 rest h.1, add_zero]
      simp [lookupQ, getVal]
    · rw [sumVals_cons, if_neg hk, zero_add, ih h.2]
      simp only [lookupQ, getVal]
      rw [if_neg (fun hk2 => hk hk2.symm)]

/-! ### The accumulator fold of the downsampler -/

theorem keysOf_cons {α : Type} (kv : String × α) (es : List (String × α)) :
    keysOf (kv :: es) = kv.1 :: keysOf es := rfl

theorem sumStep_add (dateCol : String) (acc : Row × ℚ) (kv : String × ℚ)
    (h1 : kv.1 ≠ dateCol) (h2 : kv.1 ≠ "id") :
    sumStep dateCol acc kv = (upsertAdd acc.1 kv.1 kv.2, acc.2) := by
  unfold sumStep
  rw [if_pos ⟨h1, h2⟩]

theorem sumStep_time (dateCol : String) (acc : Row × ℚ) (kv : String × ℚ)
    (h : kv.1 = dateCol) :
    sumStep dateCol acc kv = (acc.1, acc.2 + kv.2) := by
  unfold sumStep
  rw [if_neg (fun hc => hc.1 h), if_pos h]

theorem sumStep_skip (dateCol : String) (acc : Row × ℚ) (kv : String × ℚ)
    (h1 : kv.1 ≠ dateCol) (h2 : kv.1 = "id") :
    sumStep dateCol acc kv = acc := by
  unfold sumStep
  rw [if_neg (fun hc => hc.2 h2), if_neg h1]

theorem foldl_sumStep_snd (dateCol : String) (es : List (String × ℚ)) :
    ∀ m : Row, ∀ tt : ℚ,
      (es.foldl (sumStep dateCol) (m, tt)).2 = tt + sumVals dateCol es := by
  induction es with
  | nil => intro m tt; simp [sumVals]
  | cons kv rest ih =>
    intro m tt
    by_cases hdc : kv.1 = dateCol
    · rw [List.foldl_cons, sumStep_time dateCol (m, tt) kv hdc,
        ih m (tt + kv.2), sumVals_cons, if_pos hdc, add_assoc]
    · by_cases hid : kv.1 = "id"
      · rw [List.foldl_cons, sumStep_skip dateCol (m, tt) kv hdc hid,
          ih m tt, sumVals_cons, if_neg hdc, zero_add]
      · rw [List.foldl_cons, sumStep_add dateCol (m, tt) kv hdc hid,
          ih (upsertAdd m kv.1 kv.2) tt, sumVals_cons, if_neg hdc, zero_add]

theorem foldl_sumStep_fst_lookupQ (dateCol k : String) (hk1 : k ≠ dateCol)
    (hk2 : k ≠ "id") (es : List (String × ℚ)) :
    ∀ m : Row, ∀ tt : ℚ,
      lookupQ (es.foldl (sumStep dateCol) (m, tt)).1 k
        = lookupQ m k + sumVals k es := by
  induction es with
  | nil => intro m tt; simp [sumVals]
  | cons kv rest ih =>
    intro m tt
    by_cases hdc : kv.1 = dateCol
    · rw [List.foldl_cons, sumStep_time dateCol (m, tt) kv hdc,
        ih m (tt + kv.2), sumVals_cons,
        if_neg (fun h => hk1 (h.symm.trans hdc)), zero_add]
    · by_cases hid : kv.1 = "id"
      · rw [List.foldl_cons, sumStep_skip dateCol (m, tt) kv hdc hid,
          ih m tt, sumVals_cons,
          if_neg (fun h => hk2 (h.symm.trans hid)), zero_add]
      · rw [List.foldl_cons, sumStep_add dateCol (m, tt) kv hdc hid,
          ih (upsertAdd m kv.1 kv.2) tt, sumVals_cons, lookupQ_upsertAdd]
        by_cases hk : k = kv.1
        · rw [if_pos hk, if_pos hk.symm, add_assoc]
        · rw [if_neg hk, if_neg (fun h => hk h.symm), zero_add]

theorem foldl_sumStep_fst_mem (dateCol k : String) (es : List (String × ℚ)) :
    ∀ m : Row, ∀ tt : ℚ,
      (k ∈ keysOf (es.foldl (sumStep dateCol) (m, tt)).1
        ↔ k ∈ keysOf m ∨ (k ∈ keysOf es ∧ k ≠ dateCol ∧ k ≠ "id")) := by
  induction es with
  | nil => intro m tt; simp [keysOf]
  | cons kv rest ih =>
    intro m tt
    by_cases hdc : kv.1 = dateCol
    · rw [List.foldl_cons, sumStep_time dateCol (m, tt) kv hdc,
        ih m (tt + kv.2), keysOf_cons]
      constructor
      · rintro (h | ⟨h1, h2⟩)
        · exact Or.inl h
        · exact Or.inr ⟨List.mem_cons_of_mem _ h1, h2⟩
      · rintro (h | ⟨h1, h2, h3⟩)
        · exact Or.inl h
        · rcases List.mem_cons.mp h1 with h1 | h1
          · exact absurd (h1.trans hdc) h2
          · exact Or.inr ⟨h1, h2, h3⟩
    · by_cases hid : kv.1 = "id"
      · rw [List.foldl_cons, sumStep_skip dateCol (m, tt) kv hdc hid,
          ih m tt, keysOf_cons]
        constructor
        · rintro (h | ⟨h1, h2⟩)
          · exact Or.inl h
          · exact Or.inr ⟨List.mem_cons_of_mem _ h1, h2⟩
        · rintro (h | ⟨h1, h2, h3⟩)
          · exact Or.inl h
          · rcases List.mem_cons.mp h1 with h1 | h1
            · exact absurd (h1.trans hid) h3
            · exact Or.inr ⟨h1, h2, h3⟩
      · rw [List.foldl_cons, sumStep_add dateCol (m, tt) kv hdc hid,
          ih (upsertAdd m kv.1 kv.2) tt, mem_keysOf_upsertAdd, keysOf_cons]
        constructor
        · rintro ((h | h) | ⟨h1, h2⟩)
          · exact Or.inl h
          · subst h
            exact Or.inr ⟨List.mem_cons_self _ _, hdc, hid⟩
          · exact Or.inr ⟨List.mem_cons_of_mem _ h1, h2⟩
        · rintro (h | ⟨h1, h2, h3⟩)
          · exact Or.inl (Or.inl h)
          · rcases List.mem_cons.mp h1 with h1 | h1
            · exact Or.inl (Or.inr h1)
            · exact Or.inr ⟨h1, h2, h3⟩

theorem foldl_addRowToSums_eq_flatten (dateCol : String) (w : List Row) :
    ∀ a : Row × ℚ, w.foldl (addRowToSums dateCol) a
      = w.flatten.foldl (sumStep dateCol) a := by
  induction w with
  | nil => intro a; rfl
  | cons r rs ih =>
    intro a
    rw [List.foldl_cons, List.flatten_cons, List.foldl_append, ih]
    rfl

/-! ### Characterization of one averaged record -/

theorem averageWindow_lookupQ_dateCol (dateCol : String) (w : List Row)
    (size : ℕ) :
    lookupQ (averageWindow dateCol w size) dateCol
      = sumVals dateCol w.flatten / (size : ℚ) := by
  unfold averageWindow
  rw [foldl_addRowToSums_eq_flatten]
  simp [lookupQ, getVal_setKey, foldl_sumStep_snd]

theorem averageWindow_lookupQ (dateCol k : String) (hk1 : k ≠ dateCol)
    (hk2 : k ≠ "id") (w : List Row) (size : ℕ) :
    lookupQ (averageWindow dateCol w size) k
      = sumVals k w.flatten / (size : ℚ) := by
  unfold averageWindow
  rw [foldl_addRowToSums_eq_flatten]
  simp only [lookupQ, getVal_setKey, if_neg hk1, getVal_mapVals]
  have h := foldl_sumStep_fst_lookupQ dateCol k hk1 hk2 w.flatten [] 0
  simp only [lookupQ, getVal, Option.getD_none, zero_add] at h
  cases hv : getVal k (w.flatten.foldl (sumStep dateCol) ([], 0)).1 with
  | none =>
    rw [hv] at h
    simp only [Option.getD_none] at h
    simp [← h]
  | some v =>
    rw [hv] at h
    simp only [Option.getD_some] at h
    simp [h]

theorem averageWindow_mem_keys (dateCol k : String) (w : List Row) (size : ℕ) :
    k ∈ keysOf (averageWindow dateCol w size)
      ↔ k = dateCol ∨ (k ∈ keysOf w.flatten ∧ k ≠ dateCol ∧ k ≠ "id") := by
  unfold averageWindow
  rw [foldl_addRowToSums_eq_flatten]
  rw [show keysOf (setKey (mapVals (fun v => v / ((size : ℕ) : ℚ))
      (w.flatten.foldl (sumStep dateCol) ([], 0)).1) dateCol
      ((w.flatten.foldl (sumStep dateCol) ([], 0)).2 / ((size : ℕ) : ℚ)))
      = keysOf (setKey (mapVals (fun v => v / ((size : ℕ) : ℚ))
      (w.flatten.foldl (sumStep dateCol) ([], 0)).1) dateCol
      ((w.flatten.foldl (sumStep dateCol) ([], 0)).2 / ((size : ℕ) : ℚ)))
      from rfl]
  rw [mem_keysOf_setKey, keysOf_mapVals, foldl_sumStep_fst_mem]
  simp only [keysOf, List.map_nil, List.not_mem_nil, false_or]
  tauto

/-- The keys of `w.flatten` are the flattened per-row key lists. -/
theorem keysOf_flatten (w : List Row) :
    keysOf w.flatten = (w.map fun r => keysOf r).flatten := by
  induction w with
  | nil => rfl
  | cons r rs ih => simp [keysOf, List.flatten_cons, ih]

/-! ### Window sizes and the partition into windows -/

theorem windowSizesFrom_length (base extra : ℕ) :
    ∀ rem i : ℕ, (windowSizesFrom base extra i rem).length = rem := by
  intro rem
  induction rem with
  | zero => intro i; rfl
  | succ n ih => intro i; simp [windowSizesFrom, ih]

theorem windowSizesFrom_sum (base extra : ℕ) :
    ∀ rem i : ℕ, (windowSizesFrom base extra i rem).sum
      = rem * base + (min extra (i + rem) - min extra i) := by
  intro rem
  induction rem with
  | zero => intro i; simp [windowSizesFrom]
  | succ n ih =>
    intro i
    rw [show windowSizesFrom base extra i (n + 1)
        = (base + if i < extra then 1 else 0) :: windowSizesFrom base extra (i + 1) n
        from rfl]
    rw [List.sum_cons, ih (i + 1), Nat.succ_mul]
    by_cases h : i < extra
    · rw [if_pos h]
      omega
    · rw [if_neg h]
      omega

theorem windowSizes_sum (n t : ℕ) (h1 : 1 ≤ t) (h2 : t ≤ n) :
    (windowSizes n t).sum = n := by
  unfold windowSizes
  rw [windowSizesFrom_sum]
  have hmod : n % t < t := Nat.mod_lt n h1
  have hdiv := Nat.div_add_mod n t
  omega

theorem windowSizesFrom_eq_map_range (base extra : ℕ) :
    ∀ rem i : ℕ, windowSizesFrom base extra i rem
      = (List.range rem).map fun j => base + if i + j < extra then 1 else 0 := by
  intro rem
  induction rem with
  | zero => intro i; rfl
  | succ n ih =>
    intro i
    rw [show windowSizesFrom base extra i (n + 1)
        = (base + if i < extra then 1 else 0) :: windowSizesFrom base extra (i + 1) n
        from rfl]
    rw [ih (i + 1), List.range_succ_eq_map, List.map_cons, List.map_map]
    refine congrArg₂ List.cons ?_ ?_
    · have hc : (i < extra) ↔ (i + 0 < extra) := by omega
      exact congrArg (fun z => base + z) (if_congr hc rfl rfl)
    · apply List.map_congr_left
      intro j _
      simp only [Function.comp_apply, Nat.succ_eq_add_one]
      have hc : (i + 1 + j < extra) ↔ (i + (j + 1) < extra) := by omega
      exact congrArg (fun z => base + z) (if_congr hc rfl rfl)

theorem windowSizes_eq_map_range (n t : ℕ) :
    windowSizes n t
      = (List.range t).map fun j => n / t + if j < n % t then 1 else 0 := by
  unfold windowSizes
  rw [windowSizesFrom_eq_map_range]
  apply List.map_congr_left
  intro j _
  simp

theorem windowSizes_pos (n t : ℕ) (h1 : 1 ≤ t) (h2 : t ≤ n) :
    ∀ s ∈ windowSizes n t, 1 ≤ s := by
  intro s hs
  rw [windowSizes_eq_map_range] at hs
  obtain ⟨j, _, rfl⟩ := List.mem_map.mp hs
  have : 1 ≤ n / t := (Nat.one_le_div_iff h1).mpr h2
  omega

theorem splitWindows_length (sizes : List ℕ) :
    ∀ rows : List Row, (splitWindows rows sizes).length = sizes.length := by
  induction sizes with
  | nil => intro rows; rfl
  | cons s ss ih => intro rows; simp [splitWindows, ih]

theorem splitWindows_flatten (sizes : List ℕ) :
    ∀ rows : List Row, sizes.sum = rows.length →
      (splitWindows rows sizes).flatten = rows := by
  induction sizes with
  | nil =>
    intro rows h
    simp only [List.sum_nil] at h
    rw [show splitWindows rows [] = [] from rfl]
    exact (List.eq_nil_of_length_eq_zero h.symm).symm
  | cons s ss ih =>
    intro rows h
    rw [List.sum_cons] at h
    rw [show splitWindows rows (s :: ss) = rows.take s :: splitWindows (rows.drop s) ss
      from rfl]
    rw [List.flatten_cons, ih (rows.drop s) (by rw [List.length_drop]; omega)]
    exact List.take_append_drop s rows

theorem splitWindows_lengths (sizes : List ℕ) :
    ∀ rows : List Row, sizes.sum ≤ rows.length →
      (splitWindows rows sizes).map List.length = sizes := by
  induction sizes with
  | nil => intro rows _; rfl
  | cons s ss ih =>
    intro rows h
    rw [show splitWindows rows (s :: ss) = rows.take s :: splitWindows (rows.drop s) ss
      from rfl]
    simp only [List.sum_cons] at h
    rw [List.map_cons, List.length_take, ih (rows.drop s) (by rw [List.length_drop]; omega)]
    congr 1
    omega

theorem splitWindows_mem_mem (sizes : List ℕ) :
    ∀ rows : List Row, ∀ w ∈ splitWindows rows sizes, ∀ r ∈ w, r ∈ rows := by
  induction sizes with
  | nil => intro rows w hw; simp [splitWindows] at hw
  | cons s ss ih =>
    intro rows w hw r hr
    rw [show splitWindows rows (s :: ss) = rows.take s :: splitWindows (rows.drop s) ss
      from rfl] at hw
    rcases List.mem_cons.mp hw with hw | hw
    · exact List.take_subset s rows (hw ▸ hr)
    · exact List.drop_subset s rows (ih (rows.drop s) w hw r hr)

/-! ### The downsampling loop computes the window partition -/

theorem downsampleLoop_eq (dateCol : String) (rows : List Row)
    (base extra : ℕ) (hb : 1 ≤ base) :
    ∀ rem i cur : ℕ,
      cur + (windowSizesFrom base extra i rem).sum = rows.length →
      downsampleLoop dateCol rows base extra i rem cur
        = (splitWindows (rows.drop cur) (windowSizesFrom base extra i rem)).map
            fun w => averageWindow dateCol w w.length := by
  intro rem
  induction rem with
  | zero =>
    intro i cur _
    rfl
  | succ n ih =>
    intro i cur hsum
    rw [show windowSizesFrom base extra i (n + 1)
        = (base + if i < extra then 1 else 0) :: windowSizesFrom base extra (i + 1) n
        from rfl] at hsum ⊢
    rw [List.sum_cons] at hsum
    have hcur : cur + (base + if i < extra then 1 else 0) ≤ rows.length := by omega
    have hlt : ¬ rows.length ≤ cur := by omega
    rw [show downsampleLoop dateCol rows base extra i (n + 1) cur
        = if rows.length ≤ cur then []
          else
            averageWindow dateCol ((rows.drop cur).take
                (min (cur + (base + if i < extra then 1 else 0)) rows.length - cur))
              (base + if i < extra then 1 else 0) ::
              downsampleLoop dateCol rows base extra (i + 1) n
                (min (cur + (base + if i < extra then 1 else 0)) rows.length)
        from rfl]
    rw [if_neg hlt]
    have hmin : min (cur + (base + if i < extra then 1 else 0)) rows.length
        = cur + (base + if i < extra then 1 else 0) := min_eq_left hcur
    rw [hmin]
    rw [show splitWindows (rows.drop cur)
        ((base + if i < extra then 1 else 0) :: windowSizesFrom base extra (i + 1) n)
        = (rows.drop cur).take (base + if i < extra then 1 else 0) ::
            splitWindows ((rows.drop cur).drop (base + if i < extra then 1 else 0))
              (windowSizesFrom base extra (i + 1) n)
        from rfl]
    rw [List.map_cons]
    have hdd : (rows.drop cur).drop (base + if i < extra then 1 else 0)
        = rows.drop (cur + (base + if i < extra then 1 else 0)) := by
      rw [List.drop_drop]
    have hlen : ((rows.drop cur).take (base + if i < extra then 1 else 0)).length
        = base + if i < extra then 1 else 0 := by
      rw [List.length_take, List.length_drop]
      omega
    refine congrArg₂ List.cons ?_ ?_
    · rw [Nat.add_sub_cancel_left, hlen]
    · rw [hdd, ih (i + 1) (cur + (base + if i < extra then 1 else 0)) (by omega)]

theorem clampTarget_of_le (n : ℕ) (t : ℕ) (h : t ≤ n) :
    clampTarget n (t : ℤ) = t := by
  unfold clampTarget
  rw [if_neg (by exact_mod_cast not_lt.mpr h), Int.toNat_natCast]

theorem clampTarget_of_gt (n : ℕ) (t : ℤ) (h : (n : ℤ) < t) :
    clampTarget n t = n := by
  unfold clampTarget
  rw [if_pos h, Int.toNat_natCast]

theorem downsample_eq_split (dateCol : String) (rows : List Row) (t : ℕ)
    (h1 : 1 ≤ t) (h2 : t ≤ rows.length) :
    downsample dateCol rows (t : ℤ)
      = (splitWindows rows (windowSizes rows.length t)).map
          fun w => averageWindow dateCol w w.length := by
  unfold downsample
  rw [clampTarget_of_le rows.length t h2]
  have hb : 1 ≤ rows.length / t := (Nat.one_le_div_iff h1).mpr h2
  have hsum : 0 + (windowSizesFrom (rows.length / t) (rows.length % t) 0 t).sum
      = rows.length := by
    rw [zero_add]
    exact windowSizes_sum rows.length t h1 h2
  rw [downsampleLoop_eq dateCol rows (rows.length / t) (rows.length % t) hb t 0 0 hsum]
  rw [List.drop_zero]
  rfl

theorem downsample_clamped (dateCol : String) (rows : List Row) (t : ℤ)
    (h : (rows.length : ℤ) < t) :
    downsample dateCol rows t = downsample dateCol rows (rows.length : ℤ) := by
  unfold downsample
  rw [clampTarget_of_gt rows.length t h, clampTarget_of_le rows.length rows.length le_rfl]

theorem downsample_nonpos (dateCol : String) (rows : List Row) (t : ℤ)
    (h : t ≤ 0) : downsample dateCol rows t = [] := by
  unfold downsample
  have hc : clampTarget rows.length t = 0 := by
    unfold clampTarget
    rcases lt_or_le (rows.length : ℤ) t with hlt | hle
    · omega
    · rw [if_neg (not_lt.mpr hle)]
      exact Int.toNat_of_nonpos h
  rw [hc]
  rfl

theorem downsample_length (dateCol : String) (rows : List Row) (t : ℕ)
    (h1 : 1 ≤ t) :
    (downsample dateCol rows (t : ℤ)).length = min t rows.length := by
  rcases le_or_lt t rows.length with h2 | h2
  · rw [downsample_eq_split dateCol rows t h1 h2, List.length_map,
      splitWindows_length, windowSizes]
    rw [windowSizesFrom_length]
    omega
  · have hcast : (rows.length : ℤ) < (t : ℤ) := by exact_mod_cast h2
    rw [downsample_clamped dateCol rows (t : ℤ) hcast]
    rcases Nat.eq_zero_or_pos rows.length with hn | hn
    · rw [show ((rows.length : ℕ) : ℤ) = ((0 : ℕ) : ℤ) from by rw [hn]]
      rw [downsample_nonpos dateCol rows ((0 : ℕ) : ℤ) (by simp)]
      simp
      omega
    · rw [downsample_eq_split dateCol rows rows.length hn le_rfl, List.length_map,
        splitWindows_length, windowSizes, windowSizesFrom_length]
      omega

/-! ### Degenerate target counts -/

theorem windowSizes_self (n : ℕ) (h : 0 < n) :
    windowSizes n n = List.replicate n 1 := by
  have hlen : (windowSizes n n).length = n := by
    unfold windowSizes
    rw [windowSizesFrom_length]
  have hmem : ∀ s ∈ windowSizes n n, s = 1 := by
    intro s hs
    rw [windowSizes_eq_map_range] at hs
    obtain ⟨j, _, rfl⟩ := List.mem_map.mp hs
    simp [Nat.div_self h, Nat.mod_self]
  exact List.eq_replicate_iff.mpr ⟨hlen, hmem⟩

theorem splitWindows_replicate_one :
    ∀ rows : List Row,
      splitWindows rows (List.replicate rows.length 1) = rows.map fun r => [r] := by
  intro rows
  induction rows with
  | nil => rfl
  | cons r rs ih =>
    rw [List.length_cons, List.replicate_succ]
    rw [show splitWindows (r :: rs) (1 :: List.replicate rs.length 1)
        = (r :: rs).take 1 :: splitWindows ((r :: rs).drop 1) (List.replicate rs.length 1)
        from rfl]
    rw [show (r :: rs).take 1 = [r] from rfl, show (r :: rs).drop 1 = rs from rfl,
      ih, List.map_cons]

theorem downsample_eq_map_single (dateCol : String) (rows : List Row)
    (h : 0 < rows.length) :
    downsample dateCol rows (rows.length : ℤ)
      = rows.map fun r => averageWindow dateCol [r] 1 := by
  rw [downsample_eq_split dateCol rows rows.length h le_rfl,
    windowSizes_self rows.length h, splitWindows_replicate_one, List.map_map]
  apply List.map_congr_left
  intro r _
  rfl

theorem flatten_single (r : Row) : ([r] : List Row).flatten = r := by
  simp

/-! ### Sample data for concrete instantiations -/

/-- Four chronological readings as returned by a range scan, including the
surrogate `id` column. -/
def sampleRows4 : List Row :=
  [[("id", 1), ("ts", 0), ("pm25", 1)],
   [("id", 2), ("ts", 100), ("pm25", 3)],
   [("id", 3), ("ts", 200), ("pm25", 5)],
   [("id", 4), ("ts", 300), ("pm25", 7)]]

/-- Ten chronological readings, for the `10 rows into 3 windows` scenario. -/
def sampleRows10 : List Row :=
  [[("id", 1), ("ts", 0), ("pm25", 1)],
   [("id", 2), ("ts", 100), ("pm25", 3)],
   [("id", 3), ("ts", 200), ("pm25", 5)],
   [("id", 4), ("ts", 300), ("pm25", 7)],
   [("id", 5), ("ts", 400), ("pm25", 9)],
   [("id", 6), ("ts", 500), ("pm25", 11)],
   [("id", 7), ("ts", 600), ("pm25", 13)],
   [("id", 8), ("ts", 700), ("pm25", 15)],
   [("id", 9), ("ts", 800), ("pm25", 17)],
   [("id", 10), ("ts", 900), ("pm25", 19)]]

/-! ### Claim theorems -/

/-- C1: for a downsample of `n` rows into `t` windows with `1 ≤ t ≤ n`, the
result is the window-by-window average of the partition of the rows into
contiguous, non-overlapping, left-to-right windows whose `i`-th size is
`base + 1` for `i < extra` and `base` otherwise (`base = floor(n/t)`,
`extra = n mod t`); the windows concatenate back to the input with no gaps
or re-ordering, and `10` rows into `3` windows gives sizes `[4,3,3]` while
`9` rows into `3` gives `[3,3,3]`. -/
theorem downsample_window_partition (dateCol : String) (rows : List Row)
    (t : ℕ) (h1 : 1 ≤ t) (h2 : t ≤ rows.length) :
    downsample dateCol rows (t : ℤ)
      = (splitWindows rows (windowSizes rows.length t)).map
          (fun w => averageWindow dateCol w w.length)
    ∧ windowSizes rows.length t
        = (List.range t).map
            (fun i => rows.length / t + if i < rows.length % t then 1 else 0)
    ∧ (splitWindows rows (windowSizes rows.length t)).flatten = rows
    ∧ windowSizes 10 3 = [4, 3, 3]
    ∧ windowSizes 9 3 = [3, 3, 3] :=
  ⟨downsample_eq_split dateCol rows t h1 h2,
   windowSizes_eq_map_range rows.length t,
   splitWindows_flatten (windowSizes rows.length t) rows
     (windowSizes_sum rows.length t h1 h2),
   by decide, by decide⟩

theorem downsample_window_partition_witness :
    (1 ≤ 3 ∧ 3 ≤ sampleRows10.length) ∧ windowSizes 10 3 = [4, 3, 3] :=
  ⟨⟨by decide, by decide⟩,
   (downsample_window_partition "ts" sampleRows10 3 (by decide)
     (by decide)).2.2.2.1⟩

/-- C2 counterexample: downsampling one row to one window (here `t = n = 1`)
emits a record that is not equal to that row: the surrogate `id` key is
dropped and the temporal key is re-appended at the end, so "each window's
average equals that row" fails as stated. -/
theorem downsample_single_window_not_identity :
    downsample "ts" [[("id", (7 : ℚ)), ("ts", 4), ("pm25", 2)]] 1
      = [[("pm25", (2 : ℚ)), ("ts", 4)]]
    ∧ [[("pm25", (2 : ℚ)), ("ts", 4)]]
      ≠ [[("id", (7 : ℚ)), ("ts", 4), ("pm25", 2)]] := by
  constructor
  · simp +decide [downsample, clampTarget, downsampleLoop, averageWindow,
      addRowToSums, sumStep, upsertAdd, setKey, mapVals]
  · decide

/-- C2 amended: for `t ≥ 1` the emitted sequence has length exactly
`min t n` (a target above `n` is clamped); with `t = n` each window holds
one row and the averaged record agrees with that row on every column other
than the surrogate `id`, which is absent from the output; with no target
count supplied the rows are returned unchanged. -/
theorem downsample_length_min (dateCol : String) (rows : List Row) (t : ℕ)
    (h1 : 1 ≤ t) (hdc : dateCol ≠ "id")
    (hnd : ∀ r ∈ rows, (keysOf r).Nodup) :
    (downsample dateCol rows (t : ℤ)).length = min t rows.length
    ∧ (t = rows.length →
        ∀ i : ℕ, ∀ r rec : Row, rows.get? i = some r
          → (downsample dateCol rows (t : ℤ)).get? i = some rec
          → (∀ k, k ≠ "id" → lookupQ rec k = lookupQ r k) ∧ "id" ∉ keysOf rec)
    ∧ (rows ≠ [] → fetchSensorDataReadings dateCol rows none
        = FetchOutcome.ok rows) := by
  refine ⟨downsample_length dateCol rows t h1, ?_, ?_⟩
  · intro ht i r rec hri hrec
    subst ht
    have hpos : 0 < rows.length := h1
    rw [downsample_eq_map_single dateCol rows hpos, List.get?_map, hri] at hrec
    have hrmem : r ∈ rows := List.get?_mem hri
    have hrec2 : rec = averageWindow dateCol [r] 1 :=
      (Option.some.inj hrec).symm
    subst hrec2
    constructor
    · intro k hkid
      by_cases hk : k = dateCol
      · subst hk
        rw [averageWindow_lookupQ_dateCol, flatten_single,
          sumVals_eq_lookupQ k r (hnd r hrmem)]
        simp
      · rw [averageWindow_lookupQ dateCol k hk hkid, flatten_single,
          sumVals_eq_lookupQ k r (hnd r hrmem)]
        simp
    · rw [averageWindow_mem_keys]
      rintro (h | ⟨_, _, h⟩)
      · exact hdc h.symm
      · exact h rfl
  · intro hne
    unfold fetchSensorDataReadings
    rw [if_neg (fun h0 => hne (List.eq_nil_of_length_eq_zero h0))]

theorem downsample_length_min_witness :
    (downsample "ts" sampleRows4 ((3 : ℕ) : ℤ)).length
      = min 3 sampleRows4.length :=
  (downsample_length_min "ts" sampleRows4 3 (by decide) (by decide)
    (by decide)).1

/-- C3: each emitted window record carries, at the temporal column, the
arithmetic mean of the window rows' instants (not the median, first or last
instant), and at every other non-`id` column the arithmetic mean of that
column's values across the window's rows. -/
theorem downsample_window_means (dateCol : String) (rows : List Row) (t : ℕ)
    (h1 : 1 ≤ t) (h2 : t ≤ rows.length)
    (hnd : ∀ r ∈ rows, (keysOf r).Nodup) :
    ∀ i : ℕ, ∀ w : List Row,
      (splitWindows rows (windowSizes rows.length t)).get? i = some w →
      ∃ rec : Row, (downsample dateCol rows (t : ℤ)).get? i = some rec
        ∧ lookupQ rec dateCol
            = (w.map fun r => lookupQ r dateCol).sum / (w.length : ℚ)
        ∧ ∀ k, k ≠ dateCol → k ≠ "id" →
            lookupQ rec k = (w.map fun r => lookupQ r k).sum / (w.length : ℚ) := by
  intro i w hw
  have hwmem : w ∈ splitWindows rows (windowSizes rows.length t) :=
    List.get?_mem hw
  have hsub : ∀ r ∈ w, r ∈ rows :=
    splitWindows_mem_mem (windowSizes rows.length t) rows w hwmem
  have hmean : ∀ k, sumVals k w.flatten = (w.map fun r => lookupQ r k).sum := by
    intro k
    rw [sumVals_flatten]
    congr 1
    apply List.map_congr_left
    intro r hr
    exact sumVals_eq_lookupQ k r (hnd r (hsub r hr))
  refine ⟨averageWindow dateCol w w.length, ?_, ?_, ?_⟩
  · rw [downsample_eq_split dateCol rows t h1 h2, List.get?_map, hw]
    rfl
  · rw [averageWindow_lookupQ_dateCol, hmean]
  · intro k hk1 hk2
    rw [averageWindow_lookupQ dateCol k hk1 hk2, hmean]

theorem downsample_window_means_witness :
    lookupQ [("pm25", (2 : ℚ)), ("ts", 50)] "ts"
      = (([[("id", (1 : ℚ)), ("ts", 0), ("pm25", 1)],
           [("id", (2 : ℚ)), ("ts", 100), ("pm25", 3)]] : List Row).map
          fun r => lookupQ r "ts").sum
        / (([[("id", (1 : ℚ)), ("ts", 0), ("pm25", 1)],
             [("id", (2 : ℚ)), ("ts", 100), ("pm25", 3)]] : List Row).length : ℚ) := by
  obtain ⟨rec, hget, hts, hcols⟩ :=
    downsample_window_means "ts" sampleRows4 2 (by decide) (by decide)
      (by decide) 0
      [[("id", (1 : ℚ)), ("ts", 0), ("pm25", 1)],
       [("id", (2 : ℚ)), ("ts", 100), ("pm25", 3)]] (by decide)
  have hval : (downsample "ts" sampleRows4 ((2 : ℕ) : ℤ)).get? 0
      = some [("pm25", (2 : ℚ)), ("ts", 50)] := by
    simp +decide [sampleRows4, downsample, clampTarget, downsampleLoop,
      averageWindow, addRowToSums, sumStep, upsertAdd, setKey, mapVals,
      List.get?]
    all_goals norm_num
  rw [hval] at hget
  rw [Option.some.inj hget]
  exact hts

/-- C4: a supplied averaged-row count of `0` or a negative value is NOT
rejected as an input error: the handler answers `200 OK` with an empty
array, because the averaging loop simply runs zero iterations (evaluation
of the code at the failing inputs). -/
theorem fetch_zero_target_not_rejected :
    fetchSensorDataReadings "ts" [[("ts", (0 : ℚ)), ("pm25", 1)]] (some 0)
      = FetchOutcome.ok []
    ∧ fetchSensorDataReadings "ts" [[("ts", (0 : ℚ)), ("pm25", 1)]] (some (-3))
      = FetchOutcome.ok [] := by
  constructor
  · decide
  · decide

/-- C5 counterexample: the downsample-capable JSON fetch path (part_002
lines 861-864) returns a row whose temporal value equals the start bound,
so the claim that the plain JSON fetch mode is exclusive (`v > start`) on
every fetch path fails. -/
theorem fetch_downsample_bounds_not_exclusive :
    fetchRangeRowsDownsample [[("ts", (5 : ℚ))]] "ts" 5 9 = [[("ts", (5 : ℚ))]]
    ∧ ¬ ((5 : ℚ) < lookupQ [("ts", (5 : ℚ))] "ts") := by
  constructor
  · decide
  · decide

/-- C5 amended: the CSV-export path filters inclusively at both ends
(`v ≥ start ∧ v ≤ end`); the plain JSON fetch of `DataReadings.js` filters
exclusively at both ends (`v > start ∧ v < end`); but the downsample-capable
JSON fetch copy of part_002 filters inclusively at both ends, so the two
JSON fetch copies do not share one mode. -/
theorem range_query_bounds_modes (rows : List Row) (col : String) (lo hi : ℚ) :
    (∀ r : Row, r ∈ exportRangeRows rows col lo hi
        ↔ r ∈ rows ∧ lo ≤ lookupQ r col ∧ lookupQ r col ≤ hi)
    ∧ (∀ r : Row, r ∈ fetchRangeRowsPlain rows col lo hi
        ↔ r ∈ rows ∧ lo < lookupQ r col ∧ lookupQ r col < hi)
    ∧ (∀ r : Row, r ∈ fetchRangeRowsDownsample rows col lo hi
        ↔ r ∈ rows ∧ lo ≤ lookupQ r col ∧ lookupQ r col ≤ hi) := by
  refine ⟨?_, ?_, ?_⟩ <;>
    · intro r
      simp [exportRangeRows, fetchRangeRowsPlain, fetchRangeRowsDownsample,
        selectRange, List.mem_filter, and_assoc]

theorem range_query_bounds_modes_witness :
    [("ts", (5 : ℚ))] ∈ fetchRangeRowsDownsample [[("ts", (5 : ℚ))]] "ts" 5 9
      ↔ [("ts", (5 : ℚ))] ∈ [[("ts", (5 : ℚ))]]
        ∧ (5 : ℚ) ≤ lookupQ [("ts", (5 : ℚ))] "ts"
        ∧ lookupQ [("ts", (5 : ℚ))] "ts" ≤ 9 :=
  (range_query_bounds_modes [[("ts", (5 : ℚ))]] "ts" 5 9).2.2 [("ts", (5 : ℚ))]

/-- C6: for a fresh table name, provisioning succeeds if and only if the
schema has exactly one entry of abstract type `date`/`datetime` (matched
case-insensitively); with zero or two or more such entries the call throws
the `InvalidSchema` error and the set of tables is unchanged. -/
theorem schema_validation_iff (tables : List String) (tableName : String)
    (schema : Schema) (h : tableName ∉ tables) :
    ((createSensorMeasurementTable tables tableName schema).2
        = Except.ok ProvisionOutcome.created
      ↔ (dateColumnsOf schema).length = 1)
    ∧ ((dateColumnsOf schema).length ≠ 1 →
        createSensorMeasurementTable tables tableName schema
          = (tables,
              Except.error
                ("Table must contain exactly one date or datetime column, found "
                  ++ toString (dateColumnsOf schema).length ++ "."))) := by
  unfold createSensorMeasurementTable
  rw [if_neg h]
  by_cases hc : (dateColumnsOf schema).length = 1
  · rw [if_neg (not_not_intro hc)]
    exact ⟨by simp [hc], fun hcon => absurd hc hcon⟩
  · rw [if_pos hc]
    exact ⟨by simp [hc], fun _ => rfl⟩

theorem schema_validation_iff_witness :
    ("t1" ∉ ([] : List String))
    ∧ ((createSensorMeasurementTable [] "t1"
          [("ts", "datetime"), ("pm25", "float")]).2
        = Except.ok ProvisionOutcome.created
      ↔ (dateColumnsOf [("ts", "datetime"), ("pm25", "float")]).length = 1) :=
  ⟨by decide,
   (schema_validation_iff [] "t1" [("ts", "datetime"), ("pm25", "float")]
     (by decide)).1⟩

/-- C7: provisioning a fresh identity with a valid schema yields `Created`
and appends exactly one table; provisioning the same identity again yields
the `AlreadyExists` value (an ordinary return, `Except.ok`, not a thrown
`Except.error`) and leaves the tables unchanged; and whenever the name
already exists, the existence check answers before schema validation — the
outcome is `AlreadyExists` for every schema, valid or not. -/
theorem provision_twice_idempotent (tables : List String) (tableName : String)
    (schema : Schema) (h1 : tableName ∉ tables)
    (h2 : (dateColumnsOf schema).length = 1) :
    createSensorMeasurementTable tables tableName schema
        = (tables ++ [tableName], Except.ok ProvisionOutcome.created)
    ∧ createSensorMeasurementTable (tables ++ [tableName]) tableName schema
        = (tables ++ [tableName], Except.ok ProvisionOutcome.alreadyExists)
    ∧ (tables ++ [tableName]).count tableName = 1
    ∧ ∀ tbls : List String, ∀ sch : Schema, tableName ∈ tbls →
        createSensorMeasurementTable tbls tableName sch
          = (tbls, Except.ok ProvisionOutcome.alreadyExists) := by
  refine ⟨?_, ?_, ?_, ?_⟩
  · unfold createSensorMeasurementTable
    rw [if_neg h1, if_neg (not_not_intro h2)]
  · unfold createSensorMeasurementTable
    rw [if_pos (by simp)]
  · rw [List.count_append, List.count_eq_zero_of_not_mem h1]
    simp
  · intro tbls sch hmem
    unfold createSensorMeasurementTable
    rw [if_pos hmem]

theorem provision_twice_idempotent_witness :
    createSensorMeasurementTable [] "t2" [("ts", "datetime")]
        = ([] ++ ["t2"], Except.ok ProvisionOutcome.created)
    ∧ createSensorMeasurementTable ([] ++ ["t2"]) "t2" [("ts", "datetime")]
        = ([] ++ ["t2"], Except.ok ProvisionOutcome.alreadyExists) :=
  ⟨(provision_twice_idempotent [] "t2" [("ts", "datetime")] (by decide)
      (by decide)).1,
   (provision_twice_idempotent [] "t2" [("ts", "datetime")] (by decide)
      (by decide)).2.1⟩

/-- C8: the structured-JSON insert path compares only the FIRST record's
key set against the live columns, so a batch whose second record's key set
differs is accepted and handed to the bulk insert in full (evaluation at
the failing input), even though that second record fails `compareSets`;
the CSV path, by contrast, checks every row and rejects the whole upload
on the mismatch with nothing inserted. -/
theorem json_insert_checks_only_first_record :
    insertSensorDataReadings {"ts", "pm25"} "ts"
        [[("ts", "2024-03-05 14:00:00"), ("pm25", "3")],
         [("ts", "2024-03-06 15:00:00")]]
      = InsertOutcome.inserted
          [[("ts", "2024-03-05 14:00:00"), ("pm25", "3")],
           [("ts", "2024-03-06 15:00:00")]]
    ∧ compareSets
        (keysOf [(("ts" : String), ("2024-03-06 15:00:00" : String))]).toFinset
        {"ts", "pm25"} = false
    ∧ insertSensorDataFromCSV {"ts", "pm25"} "ts"
        [[("ts", "2024-03-05 14:00:00"), ("pm25", "3")],
         [("ts", "2024-03-06 15:00:00")]]
      = InsertOutcome.rejected "Column validation failed." := by
  refine ⟨?_, ?_, ?_⟩
  · decide
  · decide
  · decide

/-- C9: the normalizer of the insert path rewrites a slash-delimited
temporal value `3/5/2024 14:00:00` to the canonical
`2024-03-05 14:00:00` (zero-padded year-month-day, space, time) before the
record is appended. -/
theorem formatDateTime_slash_roundtrip :
    formatDateTime "3/5/2024 14:00:00" = Except.ok "2024-03-05 14:00:00"
    ∧ normalizeRecordDate "ts" [("ts", "3/5/2024 14:00:00"), ("pm25", "7")]
        = Except.ok [("ts", "2024-03-05 14:00:00"), ("pm25", "7")] := by
  refine ⟨?_, ?_⟩
  · rfl
  · rfl

/-- C10: every record emitted by a downsample with a target count carries
no `id` key — its key set is exactly the (uniform) key set of the fetched
rows minus the surrogate `id` — while the non-downsampled response returns
the fetched rows unchanged, `id` column included. -/
theorem downsample_output_excludes_id (dateCol : String) (rows : List Row)
    (t : ℕ) (ks : List String) (h1 : 1 ≤ t) (h2 : t ≤ rows.length)
    (hks : ∀ r ∈ rows, keysOf r = ks) (hdc : dateCol ∈ ks)
    (hneq : dateCol ≠ "id") (hid : "id" ∈ ks) :
    (∀ rec ∈ downsample dateCol rows (t : ℤ),
        "id" ∉ keysOf rec ∧ (∀ k, k ∈ keysOf rec ↔ k ∈ ks ∧ k ≠ "id"))
    ∧ (∀ r ∈ rows, "id" ∈ keysOf r)
    ∧ fetchSensorDataReadings dateCol rows none = FetchOutcome.ok rows := by
  have hsum : (windowSizes rows.length t).sum = rows.length :=
    windowSizes_sum rows.length t h1 h2
  refine ⟨?_, fun r hr => (hks r hr).symm ▸ hid, ?_⟩
  · intro rec hrec
    rw [downsample_eq_split dateCol rows t h1 h2] at hrec
    obtain ⟨w, hw, rfl⟩ := List.mem_map.mp hrec
    have hsub : ∀ r ∈ w, r ∈ rows :=
      splitWindows_mem_mem (windowSizes rows.length t) rows w hw
    have hwlen : 1 ≤ w.length := by
      have hlens := splitWindows_lengths (windowSizes rows.length t) rows
        (le_of_eq hsum)
      have hmm : w.length ∈ windowSizes rows.length t := by
        rw [← hlens]
        exact List.mem_map_of_mem List.length hw
      exact windowSizes_pos rows.length t h1 h2 w.length hmm
    have hwne : w ≠ [] := by
      intro h0
      rw [h0] at hwlen
      simp at hwlen
    have hflat : ∀ k : String, k ∈ keysOf w.flatten ↔ k ∈ ks := by
      intro k
      rw [keysOf_flatten, List.mem_flatten]
      constructor
      · rintro ⟨l, hl, hkl⟩
        obtain ⟨r, hrw, rfl⟩ := List.mem_map.mp hl
        rw [hks r (hsub r hrw)] at hkl
        exact hkl
      · intro hkk
        obtain ⟨r0, hr0⟩ := List.exists_mem_of_ne_nil w hwne
        exact ⟨keysOf r0, List.mem_map_of_mem _ hr0,
          by rw [hks r0 (hsub r0 hr0)]; exact hkk⟩
    constructor
    · rw [averageWindow_mem_keys]
      rintro (h | ⟨_, _, h⟩)
      · exact hneq h.symm
      · exact h rfl
    · intro k
      rw [averageWindow_mem_keys]
      constructor
      · rintro (h | ⟨hk1, _, hk3⟩)
        · subst h
          exact ⟨hdc, hneq⟩
        · exact ⟨(hflat k).mp hk1, hk3⟩
      · rintro ⟨hkk, hknid⟩
        by_cases hk : k = dateCol
        · exact Or.inl hk
        · exact Or.inr ⟨(hflat k).mpr hkk, hk, hknid⟩
  · have hne : rows ≠ [] := by
      intro h0
      rw [h0] at h2
      simp at h2
      omega
    unfold fetchSensorDataReadings
    rw [if_neg (fun h0 => hne (List.eq_nil_of_length_eq_zero h0))]

theorem downsample_output_excludes_id_witness :
    fetchSensorDataReadings "ts" sampleRows4 none
      = FetchOutcome.ok sampleRows4 :=
  (downsample_output_excludes_id "ts" sampleRows4 2 ["id", "ts", "pm25"]
    (by decide) (by decide) (by decide) (by decide) (by decide)
    (by decide)).2.2

end AirQuality
